import Mathlib

/-
Verification of the linkin-lark conversion pipeline.

Shallow embedding of the core pipeline logic:
  - the chunker splitTextIntoChunks (src/src/tts.ts),
  - the retry/backoff logic of RateLimiter (src/src/services/rate-limiter.ts),
  - the persisted run-state store StateManager (src/src/services/state-manager.ts),
  - the per-chapter orchestration of convertCommand (src/unnamed/part_006).

Text is modelled as List Char (JS strings are sequences of code units; all the
operations used by the source act on them positionally).  JSON numbers are
modelled as rationals, so that the JS Number.isInteger check is non-trivial.
-/

namespace LinkinLark

/-! ## Chunker: splitTextIntoChunks (src/src/tts.ts, lines 115-167) -/

/-- Whitespace test backing the JS regex class \s and String.trim. -/
def isWsChar (c : Char) : Bool := c.isWhitespace

/-- Embedding of JS String.trimStart. -/
def trimStartL (s : List Char) : List Char := s.dropWhile isWsChar

/-- Embedding of JS String.trimEnd. -/
def trimEndL (s : List Char) : List Char := (s.reverse.dropWhile isWsChar).reverse

/-- Embedding of the JS test chunk.trim().length == 0 (the chunk is all whitespace). -/
def isBlankL (s : List Char) : Bool := s.all isWsChar

/-- Index of the LAST adjacent pair a,b with p a b in the list (indices relative to
the start of the list); none when no such pair exists.  This backs both
slice.lastIndexOf of a two-character pattern and the last match of a
two-character regex (such matches can never overlap, so the global regex scan
of the source finds exactly the pairs found here). -/
def lastPairIdxAux (p : Char → Char → Bool) : List Char → Nat → Option Nat
  | a :: b :: rest, i =>
    match lastPairIdxAux p (b :: rest) (i + 1) with
    | some j => some j
    | none => if p a b then some i else none
  | _, _ => none

/-- Entry point of the last-pair scan at index 0. -/
def lastPairIdx (p : Char → Char → Bool) (s : List Char) : Option Nat :=
  lastPairIdxAux p s 0

/-- The sentence-boundary pattern of the source regex: a period followed by whitespace. -/
def sentencePair (a b : Char) : Bool := a == '.' && isWsChar b

/-- The paragraph-boundary pattern of slice.lastIndexOf of two newlines. -/
def paragraphPair (a b : Char) : Bool := a == '\n' && b == '\n'

/-- The paragraphEnd value of the source: slice.lastIndexOf of two newlines,
with -1 when absent (JS lastIndexOf convention). -/
def paraIdx (slice : List Char) : Int :=
  match lastPairIdx paragraphPair slice with
  | some i => (i : Int)
  | none => -1

/-- The sentenceEnd value of the source: last regex match index plus one, with
-1 when the regex never matches. -/
def sentEnd (slice : List Char) : Int :=
  match lastPairIdx sentencePair slice with
  | some i => (i : Int) + 1
  | none => -1

/-- The boundary-preference ladder of lines 139-143 of src/src/tts.ts, giving
the relative end offset chosen before the safety reset.  Comparisons are done
in Int because the JS expressions maxChars - 500 and maxChars - 200 can be
negative. -/
def cutTarget (slice : List Char) (m : Nat) : Int :=
  if paraIdx slice > (m : Int) - 500 ∧ paraIdx slice > 0 then paraIdx slice
  else if sentEnd slice > (m : Int) - 200 then sentEnd slice + 1
  else (m : Int)

/-- Length of the piece the loop body of splitTextIntoChunks cuts from the
current start offset, expressed relative to the remaining text t (the source
works with absolute offsets, but every quantity it computes depends only on
the suffix from the current start).  Mirrors lines 120-149 of src/src/tts.ts:
default cut at maxChars; when more text follows, search a 500-character
lookahead window for the preferred boundary; finally the safety reset of line
147 when the chosen cut would not advance the start offset. -/
def cutLen (t : List Char) (m : Nat) : Nat :=
  if t.length ≤ m then m
  else if cutTarget (t.take (min (m + 500) t.length)) m ≤ 0 then m
  else (cutTarget (t.take (min (m + 500) t.length)) m).toNat

/-- Fuel-indexed unfolding of the while loop of splitTextIntoChunks.  One fuel
unit is one loop iteration; for maxChars ≥ 1 every iteration consumes at least
one character (cutLen is then ≥ 1), so fuel = text length fully simulates the
source loop.  The Bool argument records whether this is the first chunk
(start === 0 in the source), which alone receives trimStart; the last chunk
(cut reaching the end of the text) alone receives trimEnd; chunks that are
entirely whitespace are dropped. -/
def splitLoop (m : Nat) : Nat → List Char → Bool → List (List Char)
  | 0, _, _ => []
  | _ + 1, [], _ => []
  | fuel + 1, c :: cs, first =>
    let t := c :: cs
    let k := cutLen t m
    let piece := t.take k
    let piece2 :=
      if first then trimStartL piece
      else if t.length ≤ k then trimEndL piece
      else piece
    let rest := splitLoop m fuel (t.drop k) false
    if isBlankL piece2 then rest else piece2 :: rest

/-- Embedding of splitTextIntoChunks (src/src/tts.ts, lines 115-167). -/
def splitTextIntoChunks (t : List Char) (m : Nat) : List (List Char) :=
  splitLoop m t.length t true

/-- The non-whitespace characters of a text, in order. -/
def keepNonWs (s : List Char) : List Char := s.filter (fun c => !isWsChar c)

/-- Word splitter used to define whitespace collapsing; the accumulator holds
the reversed current word. -/
def wordsAux : List Char → List Char → List (List Char)
  | [], acc => if acc.isEmpty then [] else [acc.reverse]
  | c :: cs, acc =>
    if isWsChar c then
      if acc.isEmpty then wordsAux cs [] else acc.reverse :: wordsAux cs []
    else wordsAux cs (c :: acc)

/-- Collapsing whitespace, as the spec uses the phrase: every maximal run of
whitespace becomes a single space and outer whitespace is removed. -/
def collapseWs (s : List Char) : List Char :=
  List.intercalate [' '] (wordsAux s [])

/-! ### Chunker lemmas -/

/-- Dropping a whitespace run does not change the non-whitespace characters. -/
theorem keepNonWs_dropWhileWs (s : List Char) :
    keepNonWs (s.dropWhile isWsChar) = keepNonWs s := by
  induction s with
  | nil => rfl
  | cons c cs ih =>
    cases h : isWsChar c with
    | false => simp [List.dropWhile_cons, h]
    | true => simpa [List.dropWhile_cons, h, keepNonWs, List.filter_cons] using ih

/-- trimStart does not change the non-whitespace characters. -/
theorem keepNonWs_trimStartL (s : List Char) : keepNonWs (trimStartL s) = keepNonWs s :=
  keepNonWs_dropWhileWs s

/-- Filtering commutes with reversal, specialised to keepNonWs. -/
theorem keepNonWs_reverse (s : List Char) : keepNonWs s.reverse = (keepNonWs s).reverse := by
  simp [keepNonWs, List.filter_reverse]

/-- trimEnd does not change the non-whitespace characters. -/
theorem keepNonWs_trimEndL (s : List Char) : keepNonWs (trimEndL s) = keepNonWs s := by
  unfold trimEndL
  rw [keepNonWs_reverse, keepNonWs_dropWhileWs, keepNonWs_reverse, List.reverse_reverse]

/-- A chunk that is entirely whitespace has no non-whitespace characters. -/
theorem keepNonWs_of_blank (s : List Char) (h : isBlankL s = true) : keepNonWs s = [] := by
  unfold isBlankL at h
  unfold keepNonWs
  rw [List.filter_eq_nil_iff]
  intro a ha
  have := (List.all_eq_true.mp h) a ha
  simp [this]

/-- The last-pair scan only reports indices of genuine in-range pairs. -/
theorem lastPairIdxAux_bound (p : Char → Char → Bool) :
    ∀ (s : List Char) (i j : Nat), lastPairIdxAux p s i = some j →
      i ≤ j ∧ j + 2 ≤ i + s.length := by
  intro s
  induction s with
  | nil => intro i j h; simp [lastPairIdxAux] at h
  | cons a s2 ih =>
    intro i j h
    cases s2 with
    | nil => simp [lastPairIdxAux] at h
    | cons b rest =>
      rw [lastPairIdxAux] at h
      cases hrec : lastPairIdxAux p (b :: rest) (i + 1) with
      | some j2 =>
        rw [hrec] at h
        simp only [Option.some.injEq] at h
        subst h
        have hb := ih (i + 1) j2 hrec
        simp only [List.length_cons] at hb ⊢
        omega
      | none =>
        rw [hrec] at h
        by_cases hp : p a b = true
        · simp only [hp, if_true] at h
          cases h
          simp only [List.length_cons]
          omega
        · simp [hp] at h

/-- The paragraph index is -1 or the index of an in-range newline pair. -/
theorem paraIdx_cases (slice : List Char) :
    paraIdx slice = -1 ∨ (0 ≤ paraIdx slice ∧ paraIdx slice + 2 ≤ slice.length) := by
  cases h : lastPairIdx paragraphPair slice with
  | none => left; unfold paraIdx; rw [h]
  | some i =>
    right
    have hb := lastPairIdxAux_bound paragraphPair slice 0 i h
    have hv : paraIdx slice = (i : Int) := by unfold paraIdx; rw [h]
    rw [hv]
    omega

/-- The sentence end is -1 or bounded by the slice length. -/
theorem sentEnd_cases (slice : List Char) :
    sentEnd slice = -1 ∨ (1 ≤ sentEnd slice ∧ sentEnd slice + 1 ≤ slice.length) := by
  cases h : lastPairIdx sentencePair slice with
  | none => left; unfold sentEnd; rw [h]
  | some i =>
    right
    have hb := lastPairIdxAux_bound sentencePair slice 0 i h
    have hv : sentEnd slice = (i : Int) + 1 := by unfold sentEnd; rw [h]
    rw [hv]
    omega

/-- The chosen cut target never exceeds the ceiling plus the lookahead window. -/
theorem cutTarget_le (slice : List Char) (m : Nat) (h : slice.length ≤ m + 500) :
    cutTarget slice m ≤ (m : Int) + 500 := by
  unfold cutTarget
  have hp := paraIdx_cases slice
  have hs := sentEnd_cases slice
  have hl : (slice.length : Int) ≤ (m : Int) + 500 := by exact_mod_cast h
  split_ifs with h1 h2
  · omega
  · omega
  · omega

/-- The cut always advances the start offset when the ceiling is positive:
this is the strict-increase guarantee of the source loop. -/
theorem cutLen_pos (t : List Char) (m : Nat) (hm : 1 ≤ m) : 1 ≤ cutLen t m := by
  unfold cutLen
  split
  · exact hm
  · split
    · exact hm
    · rename_i he
      omega

/-- No cut is longer than the ceiling plus the 500-character lookahead window. -/
theorem cutLen_le (t : List Char) (m : Nat) : cutLen t m ≤ m + 500 := by
  unfold cutLen
  split
  · omega
  · rename_i hlen
    have hslice : (t.take (min (m + 500) t.length)).length ≤ m + 500 := by
      rw [List.length_take]
      omega
    have := cutTarget_le (t.take (min (m + 500) t.length)) m hslice
    split
    · omega
    · rename_i he
      omega

/-- Dropping a whitespace run never lengthens a list. -/
theorem length_dropWhileWs_le (s : List Char) : (s.dropWhile isWsChar).length ≤ s.length := by
  induction s with
  | nil => simp
  | cons c cs ih =>
    rw [List.dropWhile_cons]
    split_ifs
    · exact le_trans ih (by simp)
    · simp

/-- Trimming a piece never lengthens it. -/
theorem trimStartL_length_le (s : List Char) : (trimStartL s).length ≤ s.length :=
  length_dropWhileWs_le s

/-- Trimming a piece at the end never lengthens it. -/
theorem trimEndL_length_le (s : List Char) : (trimEndL s).length ≤ s.length := by
  unfold trimEndL
  rw [List.length_reverse]
  calc (s.reverse.dropWhile isWsChar).length ≤ s.reverse.length :=
        length_dropWhileWs_le s.reverse
    _ = s.length := List.length_reverse s

/-- Every chunk the loop emits fits in ceiling plus lookahead window. -/
theorem splitLoop_chunk_le (m : Nat) :
    ∀ (fuel : Nat) (t : List Char) (first : Bool) (c : List Char),
      c ∈ splitLoop m fuel t first → c.length ≤ m + 500 := by
  intro fuel
  induction fuel with
  | zero => intro t first c h; simp [splitLoop] at h
  | succ n ih =>
    intro t first c h
    cases t with
    | nil => simp [splitLoop] at h
    | cons a cs =>
      rw [splitLoop] at h
      have hpiece : ((a :: cs).take (cutLen (a :: cs) m)).length ≤ m + 500 := by
        rw [List.length_take]
        have := cutLen_le (a :: cs) m
        omega
      have hp2 :
          (if first then trimStartL ((a :: cs).take (cutLen (a :: cs) m))
           else if (a :: cs).length ≤ cutLen (a :: cs) m then
             trimEndL ((a :: cs).take (cutLen (a :: cs) m))
           else ((a :: cs).take (cutLen (a :: cs) m))).length ≤ m + 500 := by
        split_ifs
        · exact le_trans (trimStartL_length_le _) hpiece
        · exact le_trans (trimEndL_length_le _) hpiece
        · exact hpiece
      by_cases hb :
          isBlankL
            (if first then trimStartL ((a :: cs).take (cutLen (a :: cs) m))
             else if (a :: cs).length ≤ cutLen (a :: cs) m then
               trimEndL ((a :: cs).take (cutLen (a :: cs) m))
             else ((a :: cs).take (cutLen (a :: cs) m))) = true
      · rw [if_pos hb] at h
        exact ih _ false c h
      · rw [if_neg hb] at h
        rcases List.mem_cons.mp h with hc | hc
        · subst hc; exact hp2
        · exact ih _ false c hc

/-- With a positive ceiling, running the loop with any fuel at least the text
length gives the same chunks as fuel exactly the text length: together with
cutLen_pos this is the termination argument for the source loop. -/
theorem splitLoop_fuel_stable (m : Nat) (hm : 1 ≤ m) :
    ∀ (fuel : Nat) (t : List Char) (first : Bool), t.length ≤ fuel →
      splitLoop m fuel t first = splitLoop m t.length t first := by
  intro fuel
  induction fuel using Nat.strong_induction_on with
  | _ fuel ih =>
    intro t first hle
    cases fuel with
    | zero =>
      have ht : t = [] := by
        cases t with
        | nil => rfl
        | cons a cs => simp at hle
      subst ht
      rfl
    | succ n =>
      cases t with
      | nil => simp [splitLoop]
      | cons a cs =>
        have hk1 : 1 ≤ cutLen (a :: cs) m := cutLen_pos _ _ hm
        have hdlen : ((a :: cs).drop (cutLen (a :: cs) m)).length ≤ cs.length := by
          rw [List.length_drop]
          simp only [List.length_cons]
          omega
        have hlen : (a :: cs).length = cs.length + 1 := rfl
        have e1 := ih n (by omega) ((a :: cs).drop (cutLen (a :: cs) m)) false
          (by simp only [List.length_cons] at hle; omega)
        have e2 := ih cs.length (by omega) ((a :: cs).drop (cutLen (a :: cs) m)) false hdlen
        rw [hlen, splitLoop, splitLoop, e1, e2]

/-- One split step preserves the non-whitespace characters: the emitted piece
carries those of the cut prefix, the recursion those of the remainder. -/
theorem splitLoop_keepNonWs (m : Nat) (hm : 1 ≤ m) :
    ∀ (fuel : Nat) (t : List Char) (first : Bool), t.length ≤ fuel →
      keepNonWs (List.flatten (splitLoop m fuel t first)) = keepNonWs t := by
  intro fuel
  induction fuel with
  | zero =>
    intro t first hle
    have ht : t = [] := by
      cases t with
      | nil => rfl
      | cons a cs => simp at hle
    subst ht
    rfl
  | succ n ih =>
    intro t first hle
    cases t with
    | nil => rfl
    | cons a cs =>
      rw [splitLoop]
      have hk1 : 1 ≤ cutLen (a :: cs) m := cutLen_pos _ _ hm
      have hdlen : ((a :: cs).drop (cutLen (a :: cs) m)).length ≤ n := by
        rw [List.length_drop]
        simp only [List.length_cons] at hle ⊢
        omega
      have ihr := ih ((a :: cs).drop (cutLen (a :: cs) m)) false hdlen
      have hsplit : keepNonWs ((a :: cs).take (cutLen (a :: cs) m)) ++
          keepNonWs ((a :: cs).drop (cutLen (a :: cs) m)) = keepNonWs (a :: cs) := by
        unfold keepNonWs
        rw [← List.filter_append, List.take_append_drop]
      have hp2 :
          keepNonWs
            (if first then trimStartL ((a :: cs).take (cutLen (a :: cs) m))
             else if (a :: cs).length ≤ cutLen (a :: cs) m then
               trimEndL ((a :: cs).take (cutLen (a :: cs) m))
             else ((a :: cs).take (cutLen (a :: cs) m))) =
          keepNonWs ((a :: cs).take (cutLen (a :: cs) m)) := by
        split_ifs
        · exact keepNonWs_trimStartL _
        · exact keepNonWs_trimEndL _
        · rfl
      by_cases hb :
          isBlankL
            (if first then trimStartL ((a :: cs).take (cutLen (a :: cs) m))
             else if (a :: cs).length ≤ cutLen (a :: cs) m then
               trimEndL ((a :: cs).take (cutLen (a :: cs) m))
             else ((a :: cs).take (cutLen (a :: cs) m))) = true
      · rw [if_pos hb]
        have hz := keepNonWs_of_blank _ hb
        rw [hp2] at hz
        rw [ihr, ← hsplit, hz, List.nil_append]
      · rw [if_neg hb]
        rw [List.flatten_cons]
        unfold keepNonWs
        rw [List.filter_append]
        have h1 := hp2
        have h2 := ihr
        unfold keepNonWs at h1 h2
        rw [h1, h2, ← List.filter_append, List.take_append_drop]

/-- The loop emits nothing on empty text, whatever the fuel. -/
theorem splitLoop_nil (m : Nat) (fuel : Nat) (first : Bool) :
    splitLoop m fuel [] first = [] := by
  cases fuel <;> rfl

/-- A fully trimmed-from-the-start text is blank iff the whole text was. -/
theorem isBlank_trimStartL (s : List Char) : isBlankL (trimStartL s) = s.all isWsChar := by
  induction s with
  | nil => rfl
  | cons c cs ih =>
    unfold trimStartL at ih ⊢
    rw [List.dropWhile_cons]
    cases h : isWsChar c with
    | true => simpa [List.all_cons, h] using ih
    | false => simp [isBlankL, List.all_cons, h]

/-! ### Claim theorems for the chunker -/

/-- Claim C1, counterexample: with text consisting of one letter, one space
and one letter and ceiling 1, the middle chunk is entirely whitespace and is
dropped, so the two words fuse: the concatenation of the chunks collapses to
a single word while the original collapses to two words.  No words are lost,
but an internal seam can silently delete the separation between words. -/
theorem chunk_roundtrip_collapse_fails :
    splitTextIntoChunks (['a', ' ', 'b']) 1 = [['a'], ['b']] ∧
    collapseWs (List.flatten (splitTextIntoChunks (['a', ' ', 'b']) 1)) ≠
      collapseWs (['a', ' ', 'b']) := by decide

/-- Claim C1 (amended): for every text and every ceiling at least 1,
concatenating the chunks of split(text, ceiling) in order preserves the
sequence of non-whitespace characters exactly (no character of any word is
lost or duplicated at any seam); the stronger collapse-whitespace round trip
of the original claim can fail only by whole whitespace-only chunks being
dropped, which may fuse two adjacent words. -/
theorem splitTextIntoChunks_preserves_nonws (m : Nat) (hm : 1 ≤ m) (t : List Char) :
    keepNonWs (List.flatten (splitTextIntoChunks t m)) = keepNonWs t :=
  splitLoop_keepNonWs m hm t.length t true le_rfl

/-- Witness for the amended C1 theorem at a concrete text and ceiling. -/
theorem splitTextIntoChunks_preserves_nonws_witness :
    keepNonWs (List.flatten (splitTextIntoChunks (['a', ' ', 'b']) 1)) =
      keepNonWs (['a', ' ', 'b']) :=
  splitTextIntoChunks_preserves_nonws 1 (by decide) (['a', ' ', 'b'])

/-- Claim C2: for every text and ceiling at least 1, every chunk returned by
split has length at most ceiling plus the 500-character lookahead window; the
cut length is at least 1 on every iteration, so the start offset strictly
increases; and the fuel-indexed loop is stable at fuel = text length, i.e.
the source loop terminates within text-length iterations even on adversarial
input with no sentence or paragraph breaks. -/
theorem splitTextIntoChunks_bounded_and_terminating (m : Nat) (hm : 1 ≤ m) (t : List Char) :
    (∀ c ∈ splitTextIntoChunks t m, c.length ≤ m + 500) ∧
    (1 ≤ cutLen t m) ∧
    (∀ fuel : Nat, t.length ≤ fuel → ∀ first : Bool,
      splitLoop m fuel t first = splitLoop m t.length t first) :=
  ⟨fun c hc => splitLoop_chunk_le m t.length t true c hc,
   cutLen_pos t m hm,
   fun fuel hf first => splitLoop_fuel_stable m hm fuel t first hf⟩

/-- Witness for the C2 theorem at a concrete text and ceiling. -/
theorem splitTextIntoChunks_bounded_and_terminating_witness :
    (['a'] : List Char).length ≤ 1 + 500 ∧ 1 ≤ cutLen (['a', ' ', 'b']) 1 ∧
    splitLoop 1 7 (['a', ' ', 'b']) true = splitLoop 1 3 (['a', ' ', 'b']) true :=
  ⟨(splitTextIntoChunks_bounded_and_terminating 1 (by decide) (['a', ' ', 'b'])).1
      (['a']) (by decide),
   (splitTextIntoChunks_bounded_and_terminating 1 (by decide) (['a', ' ', 'b'])).2.1,
   (splitTextIntoChunks_bounded_and_terminating 1 (by decide) (['a', ' ', 'b'])).2.2
      7 (by decide) true⟩

/-- Claim C8, counterexample: a text no longer than the ceiling whose first
character is a space is returned with its leading whitespace removed, not
unchanged: the single-chunk path still applies trimStart to the first chunk
(src/src/tts.ts, line 154). -/
theorem splitTextIntoChunks_trims_single_chunk :
    ([' ', 'a'] : List Char).length ≤ 2 ∧
    splitTextIntoChunks ([' ', 'a']) 2 = [['a']] ∧
    splitTextIntoChunks ([' ', 'a']) 2 ≠ [[' ', 'a']] := by decide

/-- Claim C8 (amended): for every text with length at most maxChars, split
returns the empty list when the text is entirely whitespace, and otherwise
the one-element list containing the text with only its leading whitespace
removed (trailing whitespace is kept, because the single chunk takes the
first-chunk branch of the trim, never the last-chunk branch). -/
theorem splitTextIntoChunks_under_ceiling (t : List Char) (m : Nat) (hle : t.length ≤ m) :
    splitTextIntoChunks t m = if t.all isWsChar = true then [] else [trimStartL t] := by
  cases t with
  | nil => simp [splitTextIntoChunks, splitLoop]
  | cons a cs =>
    unfold splitTextIntoChunks
    rw [show (a :: cs).length = cs.length + 1 from rfl, splitLoop]
    have hk : cutLen (a :: cs) m = m := by unfold cutLen; rw [if_pos hle]
    have htake : (a :: cs).take (cutLen (a :: cs) m) = a :: cs := by
      rw [hk]; exact List.take_of_length_le hle
    have hdrop : (a :: cs).drop (cutLen (a :: cs) m) = [] := by
      rw [hk]; exact List.drop_eq_nil_of_le hle
    simp only [htake, hdrop, splitLoop_nil, if_true]
    rw [isBlank_trimStartL]

/-- Witness for the amended C8 theorem at a concrete leading-whitespace text. -/
theorem splitTextIntoChunks_under_ceiling_witness :
    splitTextIntoChunks ([' ', 'a']) 2 =
      if ([' ', 'a'] : List Char).all isWsChar = true then [] else [trimStartL ([' ', 'a'])] :=
  splitTextIntoChunks_under_ceiling ([' ', 'a']) 2 (by decide)

/-! ## RateLimiter: execute and calculateBackoff (src/src/services/rate-limiter.ts) -/

/-- Contiguous substring test, backing JS String.includes. -/
def hasSubstr (hay needle : List Char) : Bool :=
  (List.range (hay.length + 1)).any (fun i => needle.isPrefixOf (hay.drop i))

/-- The is429 classification of execute: the error message includes the rate
limit phrase (rate-limiter.ts, line 39). -/
def is429 (msg : String) : Bool := hasSubstr msg.data ("Rate limit exceeded").data

/-- The is5xx classification of execute: the error message includes the
server-error phrase (rate-limiter.ts, line 40). -/
def is5xx (msg : String) : Bool := hasSubstr msg.data ("server error").data

/-- Value of a run of decimal digits, as parseInt computes it. -/
def digitsVal (ds : List Char) : Nat := ds.foldl (fun acc c => 10 * acc + (c.toNat - 48)) 0

/-- First match of the regex looking for the retry-after phrase followed by
at least one digit, returning the captured integer: a match needs the
12-character literal and then a nonempty digit run; on a failed digit the
scan resumes one position later, exactly as the regex engine does (the
literal cannot overlap itself in a way that skips a real match). -/
def retryAfterAux : List Char → Option Nat
  | [] => none
  | c :: rest =>
    if ("Retry after ").data.isPrefixOf (c :: rest) then
      let ds := ((c :: rest).drop 12).takeWhile Char.isDigit
      if ds.isEmpty then retryAfterAux rest else some (digitsVal ds)
    else retryAfterAux rest

/-- The regex capture of calculateBackoff (rate-limiter.ts, line 55). -/
def retryAfterHint (msg : String) : Option Nat := retryAfterAux msg.data

/-- Embedding of RateLimiter.calculateBackoff (rate-limiter.ts, lines 53-61):
with an error whose message carries a parseable retry-after integer, the
delay is that many seconds in milliseconds; otherwise exponential backoff
2000 * 2 ^ attempt capped at 30000 ms. -/
def calculateBackoff (attempt : Nat) (err : Option String) : Nat :=
  match err with
  | some msg =>
    match retryAfterHint msg with
    | some n => n * 1000
    | none => min (2000 * 2 ^ attempt) 30000
  | none => min (2000 * 2 ^ attempt) 30000

/-- Observable trace of one RateLimiter.execute call: the propagated result,
how many times the task fn was invoked, and the total backoff delay waited
between attempts (the pacing wait at the top of execute, which depends on
wall-clock time, is not modelled; it does not affect these quantities). -/
structure ExecTrace (T : Type) where
  result : Except String T
  calls : Nat
  totalDelayMs : Nat

/-- Fuel-indexed embedding of the retry recursion of RateLimiter.execute
(rate-limiter.ts, lines 27-51).  fn gives the outcome of the attempt with the
given retryCount; a failure is retried only when retryCount < maxRetries and
the message classifies as rate-limited or server error, with the backoff
delay computed from the 429 error when applicable; otherwise the error is
rethrown unchanged.  The fuel only bounds the recursion depth: entered at
retryCount = 0 with fuel = maxRetries + 1, the fuel-zero branch is
unreachable because every recursive step has retryCount < maxRetries. -/
def executeFuel {T : Type} (fn : Nat → Except String T) (maxRetries : Nat) :
    Nat → Nat → ExecTrace T
  | _, 0 => { result := Except.error (""), calls := 0, totalDelayMs := 0 }
  | rc, fuel + 1 =>
    match fn rc with
    | Except.ok v => { result := Except.ok v, calls := 1, totalDelayMs := 0 }
    | Except.error e =>
      if rc < maxRetries ∧ (is429 e || is5xx e) = true then
        let d := calculateBackoff rc (if is429 e then some e else none)
        let t := executeFuel fn maxRetries (rc + 1) fuel
        { result := t.result, calls := t.calls + 1, totalDelayMs := d + t.totalDelayMs }
      else { result := Except.error e, calls := 1, totalDelayMs := 0 }

/-- Embedding of RateLimiter.execute called at its public entry point
(retryCount = 0). -/
def execute {T : Type} (fn : Nat → Except String T) (maxRetries : Nat) : ExecTrace T :=
  executeFuel fn maxRetries 0 (maxRetries + 1)

/-- A task that always fails with a server-error message (used as concrete input). -/
def alwaysServerError : Nat → Except String Unit :=
  fun _ => Except.error ("ElevenLabs server error: Internal Server Error")

/-- A task that always fails with a plain client-error message (neither the
rate-limit phrase nor the server-error phrase occurs in it). -/
def clientErrorTask : Nat → Except String Unit :=
  fun _ => Except.error ("ElevenLabs API failure: Not Found. missing voice")

/-- Along the reachable calls of the retry recursion, the number of task
invocations is bounded by the fuel, at least one invocation happens, and a
propagated error is exactly the outcome of the last invocation. -/
theorem executeFuel_spec {T : Type} (fn : Nat → Except String T) (mr : Nat) :
    ∀ (fuel rc : Nat), rc ≤ mr → rc + fuel = mr + 1 →
      (executeFuel fn mr rc fuel).calls ≤ fuel ∧
      1 ≤ (executeFuel fn mr rc fuel).calls ∧
      (∀ e, (executeFuel fn mr rc fuel).result = Except.error e →
        fn (rc + (executeFuel fn mr rc fuel).calls - 1) = Except.error e) := by
  intro fuel
  induction fuel with
  | zero => intro rc h1 h2; omega
  | succ n ih =>
    intro rc h1 h2
    cases hf : fn rc with
    | ok v =>
      simp only [executeFuel, hf]
      refine ⟨by omega, by omega, ?_⟩
      intro e he
      simp at he
    | error e0 =>
      by_cases hg : rc < mr ∧ (is429 e0 || is5xx e0) = true
      · simp only [executeFuel, hf, if_pos hg]
        have hih := ih (rc + 1) (by omega) (by omega)
        refine ⟨by omega, by omega, ?_⟩
        intro e he
        have hlast := hih.2.2 e he
        have hidx : rc + ((executeFuel fn mr (rc + 1) n).calls + 1) - 1 =
            rc + 1 + (executeFuel fn mr (rc + 1) n).calls - 1 := by omega
        rw [hidx]
        exact hlast
      · simp only [executeFuel, hf, if_neg hg]
        refine ⟨by omega, by omega, ?_⟩
        intro e he
        simp only [Except.error.injEq] at he
        subst he
        simpa using hf

/-! ### Claim theorems for the rate limiter -/

/-- Claim C5, counterexample: when the retry budget is exhausted, execute
rethrows the last error UNCHANGED (rate-limiter.ts, line 49); with
maxRetries = 3 and a task that always fails as a server error, the task runs
4 times and the propagated message is exactly the original classification
message, which contains no statement of an exhausted-retries condition (no
retr, Retr or xhaust fragment occurs in it). -/
theorem execute_exhausted_message_unchanged :
    (execute alwaysServerError 3).calls = 4 ∧
    (execute alwaysServerError 3).result =
      Except.error ("ElevenLabs server error: Internal Server Error") ∧
    hasSubstr ("ElevenLabs server error: Internal Server Error").data ("retr").data = false ∧
    hasSubstr ("ElevenLabs server error: Internal Server Error").data ("Retr").data = false ∧
    hasSubstr ("ElevenLabs server error: Internal Server Error").data ("xhaust").data = false :=
  ⟨by decide, by rfl, by decide, by decide, by decide⟩

/-- Claim C5 (amended): for every task fn and every maxRetries, execute
invokes fn at most maxRetries + 1 times; when the budget is exhausted the
last failure is propagated as the terminal failure, but its message is the
last error message unchanged — no exhausted-retries wording is added. -/
theorem execute_retry_budget (T : Type) (fn : Nat → Except String T) (mr : Nat) :
    (execute fn mr).calls ≤ mr + 1 ∧
    (∀ e, (execute fn mr).result = Except.error e →
      fn ((execute fn mr).calls - 1) = Except.error e) := by
  have h := executeFuel_spec fn mr (mr + 1) 0 (by omega) (by omega)
  exact ⟨h.1, fun e he => by simpa using h.2.2 e he⟩

/-- Witness for the amended C5 theorem at a concrete always-failing task. -/
theorem execute_retry_budget_witness :
    (execute alwaysServerError 3).calls ≤ 3 + 1 ∧
    alwaysServerError ((execute alwaysServerError 3).calls - 1) =
      Except.error ("ElevenLabs server error: Internal Server Error") :=
  ⟨(execute_retry_budget Unit alwaysServerError 3).1,
   (execute_retry_budget Unit alwaysServerError 3).2 _ (by rfl)⟩

/-- Claim C6: the exponential backoff for a server-error classification is
non-decreasing in the attempt count and bounded by the 30000 ms ceiling; and
an error classified as neither rate-limited nor server error is never
retried: execute propagates it immediately, with exactly one task invocation
and zero backoff delay. -/
theorem backoff_monotone_and_client_immediate :
    (∀ a b : Nat, a ≤ b →
      calculateBackoff a none ≤ calculateBackoff b none ∧
      calculateBackoff b none ≤ 30000) ∧
    (∀ (T : Type) (fn : Nat → Except String T) (mr : Nat) (e : String),
      fn 0 = Except.error e → is429 e = false → is5xx e = false →
      execute fn mr = { result := Except.error e, calls := 1, totalDelayMs := 0 }) := by
  constructor
  · intro a b hab
    simp only [calculateBackoff]
    constructor
    · exact min_le_min
        (Nat.mul_le_mul_left 2000 (Nat.pow_le_pow_right (by norm_num) hab)) le_rfl
    · exact min_le_right _ _
  · intro T fn mr e hf h1 h2
    have hng : ¬(0 < mr ∧ (is429 e || is5xx e) = true) := by
      simp [h1, h2]
    unfold execute
    simp only [executeFuel, hf, if_neg hng]

/-- Witness for the C6 theorem at concrete attempts and a concrete client error. -/
theorem backoff_monotone_and_client_immediate_witness :
    (calculateBackoff 0 none ≤ calculateBackoff 3 none ∧ calculateBackoff 3 none ≤ 30000) ∧
    execute clientErrorTask 5 =
      { result := Except.error ("ElevenLabs API failure: Not Found. missing voice"),
        calls := 1, totalDelayMs := 0 } :=
  ⟨backoff_monotone_and_client_immediate.1 0 3 (by omega),
   backoff_monotone_and_client_immediate.2 Unit clientErrorTask 5 _
     (by rfl) (by decide) (by decide)⟩

/-- Claim C7, counterexample: a parseable hint of 0 seconds yields a delay of
0 ms, so the delay is NOT clamped to at least one time unit; and with an
absent or unparseable hint the delay is the exponential backoff (2000 ms at
attempt 0, 4000 ms at attempt 1), not a fixed default of 5 time units. -/
theorem calculateBackoff_hint_unclamped_no_fixed_default :
    calculateBackoff 0 (some ("Rate limit exceeded. Retry after 0 seconds.")) = 0 ∧
    calculateBackoff 0 (some ("Rate limit exceeded. Retry after unknown seconds.")) = 2000 ∧
    calculateBackoff 1 (some ("Rate limit exceeded. Retry after unknown seconds.")) = 4000 :=
  ⟨by decide, by decide, by decide⟩

/-- Claim C7 (amended): for a rate-limited failure whose message carries a
parseable seconds-integer hint, the retry delay is exactly hint * 1000 ms
with no lower clamp; when the hint is absent or unparseable, the delay equals
the same exponential backoff used for server errors, not a fixed default. -/
theorem calculateBackoff_hint_behavior (a : Nat) (msg : String) :
    (∀ n, retryAfterHint msg = some n → calculateBackoff a (some msg) = n * 1000) ∧
    (retryAfterHint msg = none → calculateBackoff a (some msg) = calculateBackoff a none) := by
  constructor
  · intro n hn
    simp [calculateBackoff, hn]
  · intro hn
    simp [calculateBackoff, hn]

/-- Witness for the amended C7 theorem at a concrete hint-carrying message. -/
theorem calculateBackoff_hint_behavior_witness :
    calculateBackoff 2 (some ("Rate limit exceeded. Retry after 7 seconds.")) = 7 * 1000 :=
  (calculateBackoff_hint_behavior 2 ("Rate limit exceeded. Retry after 7 seconds.")).1
    7 (by decide)

/-! ## StateManager: load and isValidState (src/src/services/state-manager.ts)

The persisted file parses to a JSON value; numbers are modelled as rationals
(JS numbers carry fractional values, and Number.isInteger is a real check),
strings as Lean strings.  A missing file or a JSON.parse failure both make
load return null and are modelled as the none content. -/

/-- JSON values as JSON.parse produces them. -/
inductive JVal : Type where
  | jnull : JVal
  | jbool : Bool → JVal
  | jnum : ℚ → JVal
  | jstr : String → JVal
  | jarr : List JVal → JVal
  | jobj : List (String × JVal) → JVal

/-- Property access on a parsed object: the value stored at the key, none for
a missing property (JS undefined).  JSON.parse keeps the last of duplicate
keys, hence the left fold taking the later occurrence. -/
def getField (fs : List (String × JVal)) (k : String) : Option JVal :=
  fs.foldl (fun acc f => if f.1 == k then some f.2 else acc) none

/-- The JS check typeof v === the string type, for a possibly-missing value. -/
def isStrV : Option JVal → Bool
  | some (JVal.jstr _) => true
  | _ => false

/-- The JS check typeof v === the number type, for a possibly-missing value. -/
def isNumV : Option JVal → Bool
  | some (JVal.jnum _) => true
  | _ => false

/-- The JS check Array.isArray v, for a possibly-missing value. -/
def isArrV : Option JVal → Bool
  | some (JVal.jarr _) => true
  | _ => false

/-- The elements of an array value (empty for anything else; only consulted
after isArrV has been checked). -/
def arrElems : Option JVal → List JVal
  | some (JVal.jarr xs) => xs
  | _ => []

/-- Numeric value of a field (0 junk default; only consulted after isNumV). -/
def qVal : Option JVal → ℚ
  | some (JVal.jnum q) => q
  | _ => 0

/-- String value of a field (empty junk default; only consulted after isStrV). -/
def sVal : Option JVal → String
  | some (JVal.jstr s) => s
  | _ => ""

/-- Element-level typeof n === number check of line 77 of state-manager.ts. -/
def isNumElem : JVal → Bool
  | JVal.jnum _ => true
  | _ => false

/-- The per-entry validation of failedChapters (state-manager.ts, lines
83-102): the entry must be an object whose index is an integer number with
0 <= index < totalChapters and whose title and error are strings.  In JS a
non-object entry (or an array, whose property accesses yield undefined) fails
these checks identically, so only the object constructor can succeed. -/
def validFailedEntry (total : ℚ) (f : JVal) : Bool :=
  match f with
  | JVal.jobj fs =>
    (match getField fs ("index") with
     | some (JVal.jnum i) => decide (i.den = 1) && decide (0 ≤ i) && decide (i < total)
     | _ => false) &&
    isStrV (getField fs ("title")) &&
    isStrV (getField fs ("error"))
  | _ => false

/-- Embedding of StateManager.isValidState (state-manager.ts, lines 60-103).
A non-object top level fails the typeof/null guard or, for an array, the
subsequent field checks, so only the object constructor can succeed. -/
def isValidState : JVal → Bool
  | JVal.jobj fs =>
    isStrV (getField fs ("source")) &&
    isArrV (getField fs ("completedChapters")) &&
    isArrV (getField fs ("failedChapters")) &&
    isStrV (getField fs ("timestamp")) &&
    isNumV (getField fs ("totalChapters")) &&
    (arrElems (getField fs ("completedChapters"))).all isNumElem &&
    (arrElems (getField fs ("failedChapters"))).all
      (validFailedEntry (qVal (getField fs ("totalChapters"))))
  | _ => false

/-- One failedChapters entry of the typed ConversionState view. -/
structure FailedChapterEntry where
  index : ℚ
  title : String
  error : String
deriving DecidableEq

/-- The typed view of the persisted state, as the ConversionState interface
of state-manager.ts declares it. -/
structure ConversionState where
  source : String
  completedChapters : List ℚ
  failedChapters : List FailedChapterEntry
  timestamp : String
  totalChapters : ℚ
deriving DecidableEq

/-- Numeric value of an array element (junk 0 for non-numbers; the validation
has already required every element to be a number). -/
def qElem : JVal → ℚ
  | JVal.jnum q => q
  | _ => 0

/-- Typed reading of one failedChapters entry off the raw JSON. -/
def decodeFailedEntry : JVal → FailedChapterEntry
  | JVal.jobj fs =>
    { index := qVal (getField fs ("index")),
      title := sVal (getField fs ("title")),
      error := sVal (getField fs ("error")) }
  | _ => { index := 0, title := "", error := "" }

/-- Typed reading of the whole state off the raw JSON (the JS cast
file.json() as ConversionState keeps the parsed object; this is the same
object seen through its declared fields). -/
def decodeState : JVal → ConversionState
  | JVal.jobj fs =>
    { source := sVal (getField fs ("source")),
      completedChapters := (arrElems (getField fs ("completedChapters"))).map qElem,
      failedChapters := (arrElems (getField fs ("failedChapters"))).map decodeFailedEntry,
      timestamp := sVal (getField fs ("timestamp")),
      totalChapters := qVal (getField fs ("totalChapters")) }
  | _ =>
    { source := "", completedChapters := [], failedChapters := [],
      timestamp := "", totalChapters := 0 }

/-- Embedding of StateManager.load (state-manager.ts, lines 24-45): a missing
file or a parse failure (the none content) and an invalid shape all yield
null; only a validated state is returned.  The function is total: no file
content makes it fail. -/
def load (content : Option JVal) : Option ConversionState :=
  match content with
  | none => none
  | some j => if isValidState j = true then some (decodeState j) else none

/-- The fresh state convertCommand builds when no usable state exists
(src/unnamed/part_006, lines 156-165). -/
def freshConversionState (input : String) (n : Nat) (now : String) : ConversionState :=
  { source := input, completedChapters := [], failedChapters := [],
    timestamp := now, totalChapters := (n : ℚ) }

/-- The state convertCommand works with after loading and validating at run
start (src/unnamed/part_006, lines 129-165): a loaded state whose source or
totalChapters does not match the current invocation is discarded (set to
null with a warning), and a null state is replaced by a fresh one. -/
def stateAtRunStart (content : Option JVal) (input : String) (n : Nat) (now : String) :
    ConversionState :=
  match load content with
  | some st =>
    if st.source ≠ input ∨ st.totalChapters ≠ (n : ℚ) then freshConversionState input n now
    else st
  | none => freshConversionState input n now

/-- Concrete persisted state used in witnesses: source book-a with 3
chapters, chapter 0 completed, chapter 1 failed. -/
def sampleStateJson : JVal :=
  JVal.jobj
    [("source", JVal.jstr ("book-a.html")),
     ("completedChapters", JVal.jarr [JVal.jnum 0]),
     ("failedChapters", JVal.jarr
       [JVal.jobj
         [("index", JVal.jnum 1),
          ("title", JVal.jstr ("Chapter 2")),
          ("error", JVal.jstr ("ElevenLabs server error: boom"))]]),
     ("timestamp", JVal.jstr ("2026-01-01T00:00:00Z")),
     ("totalChapters", JVal.jnum 3)]

/-! ### Claim theorems for the state store -/

/-- Claim C4: a persisted RunState whose source or totalChapters does not
match the current invocation is discarded at run start: the run proceeds with
exactly the same fresh state as if no state file existed, and the stale state
is never applied.  Loading itself is a total function here (malformed or
unparseable content is the none case and also yields the fresh state), so no
content can make run start crash. -/
theorem staleState_rejected (content : Option JVal) (input : String) (n : Nat) (now : String)
    (st : ConversionState) (hload : load content = some st)
    (hmis : st.source ≠ input ∨ st.totalChapters ≠ (n : ℚ)) :
    stateAtRunStart content input n now = stateAtRunStart none input n now ∧
    stateAtRunStart content input n now = freshConversionState input n now := by
  unfold stateAtRunStart
  rw [hload]
  constructor
  · show (if st.source ≠ input ∨ st.totalChapters ≠ (n : ℚ) then
        freshConversionState input n now else st) = stateAtRunStart none input n now
    rw [if_pos hmis]
    rfl
  · show (if st.source ≠ input ∨ st.totalChapters ≠ (n : ℚ) then
        freshConversionState input n now else st) = freshConversionState input n now
    rw [if_pos hmis]

/-- Witness for the C4 theorem: the sample state declares source book-a, so a
run over book-b discards it and starts fresh. -/
theorem staleState_rejected_witness :
    stateAtRunStart (some sampleStateJson) ("book-b.html") 3 ("t1") =
      stateAtRunStart none ("book-b.html") 3 ("t1") ∧
    stateAtRunStart (some sampleStateJson) ("book-b.html") 3 ("t1") =
      freshConversionState ("book-b.html") 3 ("t1") :=
  staleState_rejected (some sampleStateJson) ("book-b.html") 3 ("t1")
    (decodeState sampleStateJson) (by decide) (Or.inl (by decide))

/-- Claim C10: whenever load returns a state rather than null, every entry of
its failedChapters has an integer index with 0 <= index < totalChapters (its
title and error are strings by the typed decoding, which the validation
guarantees is faithful), so a loaded state never points a failure outside the
declared chapter range. -/
theorem load_failed_entries_in_range (content : Option JVal) (st : ConversionState)
    (hload : load content = some st) :
    ∀ f ∈ st.failedChapters, f.index.den = 1 ∧ 0 ≤ f.index ∧ f.index < st.totalChapters := by
  intro f hf
  cases content with
  | none => simp [load] at hload
  | some j =>
    simp only [load] at hload
    by_cases hv : isValidState j = true
    · rw [if_pos hv] at hload
      simp only [Option.some.injEq] at hload
      subst hload
      cases j with
      | jobj fs =>
        simp only [isValidState, Bool.and_eq_true] at hv
        have hall := hv.2
        simp only [decodeState] at hf ⊢
        rcases List.mem_map.mp hf with ⟨v, hvmem, hfv⟩
        have hval := List.all_eq_true.mp hall v hvmem
        cases v with
        | jobj fs2 =>
          simp only [validFailedEntry, Bool.and_eq_true] at hval
          rcases hval with ⟨⟨hidxm, htitle⟩, herr⟩
          subst hfv
          simp only [decodeFailedEntry]
          cases hidx : getField fs2 ("index") with
          | none => rw [hidx] at hidxm; simp at hidxm
          | some iv =>
            cases iv with
            | jnum i =>
              rw [hidx] at hidxm
              simp only [Bool.and_eq_true, decide_eq_true_eq] at hidxm
              exact ⟨hidxm.1.1, hidxm.1.2, hidxm.2⟩
            | jnull => rw [hidx] at hidxm; simp at hidxm
            | jbool b => rw [hidx] at hidxm; simp at hidxm
            | jstr s => rw [hidx] at hidxm; simp at hidxm
            | jarr xs => rw [hidx] at hidxm; simp at hidxm
            | jobj fs3 => rw [hidx] at hidxm; simp at hidxm
        | jnull => simp [validFailedEntry] at hval
        | jbool b => simp [validFailedEntry] at hval
        | jnum q => simp [validFailedEntry] at hval
        | jstr s => simp [validFailedEntry] at hval
        | jarr xs => simp [validFailedEntry] at hval
      | jnull => simp [isValidState] at hv
      | jbool b => simp [isValidState] at hv
      | jnum q => simp [isValidState] at hv
      | jstr s => simp [isValidState] at hv
      | jarr xs => simp [isValidState] at hv
    · rw [if_neg hv] at hload
      simp at hload

/-- The single failed entry of the sample state, in its typed form. -/
def sampleFailedEntry : FailedChapterEntry :=
  { index := 1, title := "Chapter 2", error := "ElevenLabs server error: boom" }

/-- Witness for the C10 theorem: the sample state loads, and its single
failed entry carries the integer index 1, inside the declared range of 3. -/
theorem load_failed_entries_in_range_witness :
    sampleFailedEntry.index.den = 1 ∧ 0 ≤ sampleFailedEntry.index ∧
    sampleFailedEntry.index < (decodeState sampleStateJson).totalChapters :=
  load_failed_entries_in_range (some sampleStateJson) (decodeState sampleStateJson)
    (by decide) sampleFailedEntry (by decide)

/-! ## Orchestrator: per-chapter outcomes of convertCommand (src/unnamed/part_006)

Chapter ordinals are the loop indices of the orchestrator, so they are
naturals here.  Only the two mutated fields of the shared state are carried;
source, totalChapters and timestamp never change after run start.  The JS
event loop serialises the synchronous mutation blocks of concurrently queued
chapter tasks, so the shared state evolves by a sequence of these two
transitions; each task handles a distinct ordinal, checks the skip condition
for its own ordinal first, and no other task ever touches that ordinal. -/

/-- One failedChapters record as convertCommand pushes it. -/
structure RunFailedEntry where
  index : Nat
  title : String
  error : String
deriving DecidableEq

/-- The mutable progress portion of the shared run state. -/
structure RunState where
  completedChapters : List Nat
  failedChapters : List RunFailedEntry
deriving DecidableEq

/-- The progress portion of a freshly created state (part_006, lines 156-165). -/
def freshRunState : RunState := { completedChapters := [], failedChapters := [] }

/-- Embedding of StateManager.shouldSkipChapter (state-manager.ts, line 47). -/
def shouldSkipChapter (i : Nat) (st : RunState) : Bool :=
  st.completedChapters.contains i

/-- The success outcome of chapter i (part_006, lines 261-266): push the
ordinal onto completedChapters, then remove every failedChapters entry with
that ordinal (a resumed retry flipping a prior failure to success), then the
state is saved. -/
def recordChapterSuccess (st : RunState) (i : Nat) : RunState :=
  { completedChapters := st.completedChapters ++ [i],
    failedChapters := st.failedChapters.filter (fun f => f.index != i) }

/-- The failure outcome of chapter i (part_006, lines 281-286): push the
failure record onto failedChapters, then the state is saved. -/
def recordChapterFailure (st : RunState) (i : Nat) (title msg : String) : RunState :=
  { st with
    failedChapters := st.failedChapters ++ [{ index := i, title := title, error := msg }] }

/-- The run states the orchestrator can persist: the fresh state, and every
state reached from one by chapter outcomes.  A chapter reaches an outcome
only when its skip check failed, i.e. its ordinal was not yet completed (a
completed ordinal is skipped and produces no outcome); a resumed run starts
from a state the previous run persisted, so resumption stays inside this
relation. -/
inductive ReachableRunState : RunState → Prop where
  | init : ReachableRunState freshRunState
  | success {st : RunState} {i : Nat} :
      ReachableRunState st → shouldSkipChapter i st = false →
      ReachableRunState (recordChapterSuccess st i)
  | failure {st : RunState} {i : Nat} {title msg : String} :
      ReachableRunState st → shouldSkipChapter i st = false →
      ReachableRunState (recordChapterFailure st i title msg)

/-! ### Claim theorems for the orchestrator -/

/-- Claim C3: in every state the orchestrator persists, the completed
ordinals and the ordinals of failedChapters entries are disjoint; moreover a
success on ordinal i always leaves failedChapters free of i (the prior
failure entries for i are filtered out before the save), so an ordinal is
never simultaneously marked complete and failed. -/
theorem runState_completed_failed_disjoint (st : RunState) (hst : ReachableRunState st) :
    (∀ i ∈ st.completedChapters, ∀ f ∈ st.failedChapters, f.index ≠ i) ∧
    (∀ i : Nat, ∀ f ∈ (recordChapterSuccess st i).failedChapters, f.index ≠ i) := by
  have hsucc : ∀ (s : RunState) (i : Nat),
      ∀ f ∈ (recordChapterSuccess s i).failedChapters, f.index ≠ i := by
    intro s i f hf
    have := (List.mem_filter.mp hf).2
    simpa using this
  refine ⟨?_, hsucc st⟩
  induction hst with
  | init => intro i hi; simp [freshRunState] at hi
  | success hr hskip ih =>
    rename_i s i0
    intro i hi f hf
    have hff := List.mem_filter.mp hf
    rcases List.mem_append.mp hi with hi1 | hi1
    · exact ih i hi1 f hff.1
    · have : i = i0 := by simpa using hi1
      subst this
      simpa using hff.2
  | failure hr hskip ih =>
    rename_i s i0 title msg
    intro i hi f hf
    rcases List.mem_append.mp hf with hf1 | hf1
    · exact ih i hi f hf1
    · have hfe : f = { index := i0, title := title, error := msg } := by simpa using hf1
      subst hfe
      show i0 ≠ i
      intro hcontra
      subst hcontra
      have hns : shouldSkipChapter i0 s = true := by
        unfold shouldSkipChapter
        exact List.elem_eq_true_of_mem hi
      rw [hns] at hskip
      cases hskip

/-- A concrete reachable state: chapter 0 succeeded, then chapter 1 failed. -/
def sampleRunState : RunState :=
  recordChapterFailure (recordChapterSuccess freshRunState 0) 1
    ("Chapter 2") ("ElevenLabs server error: boom")

/-- Witness for the C3 theorem: in the sample state chapter 0 is completed
and the failure entry points at chapter 1, not 0. -/
theorem runState_completed_failed_disjoint_witness :
    ({ index := 1, title := "Chapter 2", error := "ElevenLabs server error: boom" } :
      RunFailedEntry).index ≠ 0 :=
  (runState_completed_failed_disjoint sampleRunState
      (ReachableRunState.failure
        (ReachableRunState.success ReachableRunState.init (by decide)) (by decide))).1
    0 (by decide)
    ({ index := 1, title := "Chapter 2", error := "ElevenLabs server error: boom" })
    (by decide)

/-- What the end of convertCommand reports and whether it clears the state file. -/
inductive EndReportKind : Type where
  | jsonResult : EndReportKind
  | fullSuccess : EndReportKind
  | partialWithResumeHint : EndReportKind
deriving DecidableEq

/-- The observable end-of-run effect: the report produced and whether
stateManager.clear was invoked. -/
structure EndReport where
  kind : EndReportKind
  stateCleared : Bool
deriving DecidableEq

/-- Embedding of the terminal reporting of convertCommand (part_006, lines
306-320): in JSON mode the result object is printed and nothing else
happens; otherwise an empty failedChapters clears the state file and reports
full success, and a non-empty one leaves the file and reports partial
success with the resume reminder. -/
def endOfRunReport (isJsonMode : Bool) (st : RunState) : EndReport :=
  if isJsonMode then { kind := EndReportKind.jsonResult, stateCleared := false }
  else if st.failedChapters.length = 0 then
    { kind := EndReportKind.fullSuccess, stateCleared := true }
  else { kind := EndReportKind.partialWithResumeHint, stateCleared := false }

/-- Claim C9, counterexample: in JSON output mode the state file is never
cleared, even when every chapter succeeded (the clear call sits only in the
non-JSON branch of part_006, line 314), so the lifecycle is not independent
of the output mode. -/
theorem endOfRun_json_mode_never_clears :
    freshRunState.failedChapters = [] ∧
    (endOfRunReport true freshRunState).stateCleared = false := by decide

/-- Claim C9 (amended): in the default text mode the state file is cleared
exactly when failedChapters is empty, full success is reported exactly then,
and otherwise the file stays and partial success with a resume reminder is
reported; in JSON output mode the state file is never cleared and the JSON
result is the only report, even on full success. -/
theorem endOfRun_lifecycle (st : RunState) :
    ((endOfRunReport false st).stateCleared = true ↔ st.failedChapters = []) ∧
    ((endOfRunReport false st).kind = EndReportKind.fullSuccess ↔ st.failedChapters = []) ∧
    ((endOfRunReport false st).kind = EndReportKind.partialWithResumeHint ↔
      st.failedChapters ≠ []) ∧
    (endOfRunReport true st).stateCleared = false ∧
    (endOfRunReport true st).kind = EndReportKind.jsonResult := by
  unfold endOfRunReport
  by_cases h : st.failedChapters.length = 0
  · have he : st.failedChapters = [] := List.length_eq_zero.mp h
    simp [h, he]
  · have he : st.failedChapters ≠ [] := by
      intro hc
      exact h (by simp [hc])
    simp [h, he]

end LinkinLark
